import Mathlib

/-
  Verification development for the a19 concurrency toolkit
  (crates a19_concurrent / a19_data_persist).

  The definitions below are a shallow embedding of the repository's source:

  * src/a19_concurrent/src/queue/spsc_queue.rs   (SpscNode, SpscQueue)
  * src/a19_concurrent/src/queue/mpsc_queue.rs   (MpscNode, MpscQueue)
  * src/a19_concurrent/src/map/mrsw_map.rs       (MapContainer, MrswMap)
  * src/a19_concurrent/src/buffer/atomic_buffer.rs (AtomicByteBufferInt)

  Machine integers (usize, u32, u64) are modelled as Nat; cursors in the
  queues only ever grow and never reach 2^64 in the sequential executions
  studied here, so no wrap-around modelling is required.  Rust's HashMap is
  modelled as a function K → Option V, VecDeque as a List (push_back is
  append, pop_front takes the head), and Vec<Node> ring buffers as functions
  Nat → Node addressed through the source's `index & mask` computation.

  The theorems study sequential executions (one thread).  An atomic load
  then simply returns the current field value, an atomic store updates it,
  and a compare-exchange whose expected value was just loaded succeeds.  A
  retry loop whose exit condition cannot change during a sequential call
  would spin forever; such a call is modelled as `none` (the call does not
  return).  Fences only order memory and have no sequential effect.
-/

set_option maxHeartbeats 1000000

namespace A19

/-- Modelled from the spec: the queue and buffer constructors call
`a19_core::pow2::PowOf2::round_to_power_of_two`, whose source file is not
part of this tree.  Per the spec ("actual capacity is the smallest power of
two ≥ requested"), the result is the least power of two that is at least the
requested size.  `acc` starts at 1 and doubles; `n` doublings always
suffice because `2 ^ n ≥ n + 1`. -/
def rptAux (n : Nat) : Nat → Nat → Nat
  | 0, acc => acc
  | fuel + 1, acc => if n ≤ acc then acc else rptAux n fuel (acc * 2)

/-- Modelled from the spec: smallest power of two that is `≥ n`. -/
def roundToPowerOfTwo (n : Nat) : Nat := rptAux n n 1

/-! ## SPSC queue (src/a19_concurrent/src/queue/spsc_queue.rs) -/

/-- Embeds `SpscNode<T>` (spsc_queue.rs lines 10-13): a slot stamp `id`
(an `AtomicUsize`, 0 meaning empty) and the optional payload. -/
structure SpscNode (T : Type) where
  id : Nat
  value : Option T
deriving DecidableEq

/-- Embeds `SpscQueue<T>` (spsc_queue.rs lines 66-72).  `sequence_number`
is the consumer cursor and `producer` the producer cursor; both are
`PaddedUsize` atomic counters starting at 1 (lines 84-91).  The `Vec` ring
buffer of length `capacity` is modelled as a function from slot position to
node (only positions below `capacity` are ever addressed, via `& mask`). -/
structure SpscQueue (T : Type) where
  mask : Nat
  ring_buffer : Nat → SpscNode T
  capacity : Nat
  sequence_number : Nat
  producer : Nat

/-- Embeds `SpscQueue::new` (spsc_queue.rs lines 78-102): capacity is the
requested size rounded up to a power of two, mask is capacity − 1, both
cursors start at 1, and every slot starts as id 0 with no value. -/
def SpscQueue.new (T : Type) (queue_size : Nat) : SpscQueue T :=
  let power_of_2 := roundToPowerOfTwo queue_size
  { mask := power_of_2 - 1
    ring_buffer := fun _ => { id := 0, value := none }
    capacity := power_of_2
    sequence_number := 1
    producer := 1 }

/-- Embeds `SpscQueue::pos` (spsc_queue.rs lines 104-107). -/
def SpscQueue.pos {T : Type} (q : SpscQueue T) (index : Nat) : Nat :=
  index &&& q.mask

/-- Embeds `SpscQueue::offer` (spsc_queue.rs lines 203-223).  The
occupied-slot branch (`node.id != 0`) yields and retries; in a sequential
call the state cannot change between retries, so that branch is modelled as
`none` (the call never returns).  Otherwise the call returns `false` when
the capacity check fails, and `true` after storing the payload, advancing
the producer cursor and stamping the slot id with the claimed cursor
value. -/
def SpscQueue.offer {T : Type} (q : SpscQueue T) (value : T) : Option (Bool × SpscQueue T) :=
  let p_index := q.producer
  let c_index := q.sequence_number
  if p_index < q.capacity ∨ p_index - q.capacity < c_index then
    let p := q.pos p_index
    if (q.ring_buffer p).id = 0 then
      some (true,
        { q with
            producer := p_index + 1
            ring_buffer := Function.update q.ring_buffer p { id := p_index, value := some value } })
    else none
  else some (false, q)

/-- Embeds `SpscQueue::poll` (spsc_queue.rs lines 133-159).  When the queue
is non-empty but the slot stamp does not match the consumer cursor, the
loop goes around again with an unchanged state, so that case is modelled as
`none` (the call never returns).  On a match the consumer cursor advances,
the payload is taken and the slot stamp cleared to 0. -/
def SpscQueue.poll {T : Type} (q : SpscQueue T) : Option (Option T × SpscQueue T) :=
  let s_index := q.sequence_number
  let p_index := q.producer
  if p_index > s_index then
    let last_pos := q.pos s_index
    let node := q.ring_buffer last_pos
    if node.id = s_index then
      some (node.value,
        { q with
            sequence_number := s_index + 1
            ring_buffer := Function.update q.ring_buffer last_pos { id := 0, value := none } })
    else none
  else some (none, q)

/-- Embeds the retrieval loop of `SpscQueue::drain` (spsc_queue.rs lines
178-195): for each reserved index `s_index + i` it spins until the slot
stamp matches, takes the payload (panicking on a missing value), clears the
slot, and passes the payload to the callback.  The callback applications
are returned as a list in invocation order; a stamp that cannot match in a
sequential call, or the `"Found a None!"` panic, is modelled as `none`. -/
def spscDrainLoop {T : Type} (mask : Nat) :
    (Nat → SpscNode T) → Nat → Nat → Nat → Option (List T × (Nat → SpscNode T))
  | ring, _, _, 0 => some ([], ring)
  | ring, s_index, i, r + 1 =>
    let p := (s_index + i) &&& mask
    let node := ring p
    if node.id = s_index + i then
      match node.value with
      | none => none
      | some t_value =>
        match spscDrainLoop mask (Function.update ring p { id := 0, value := none }) s_index (i + 1) r with
        | some (vs, ring2) => some (t_value :: vs, ring2)
        | none => none
    else none

/-- Embeds `SpscQueue::drain` (spsc_queue.rs lines 166-198): returns 0 on an
empty queue; otherwise reserves `request = min limit (p_index − s_index)`
slots by advancing the consumer cursor once, then runs the retrieval loop.
The result carries the callback payloads in order, the returned count and
the final queue state. -/
def SpscQueue.drain {T : Type} (q : SpscQueue T) (limit : Nat) :
    Option (List T × Nat × SpscQueue T) :=
  let p_index := q.producer
  let s_index := q.sequence_number
  if p_index ≤ s_index then some ([], 0, q)
  else
    let request := min limit (p_index - s_index)
    match spscDrainLoop q.mask q.ring_buffer s_index 0 request with
    | some (vs, ring2) =>
      some (vs, request, { q with sequence_number := s_index + request, ring_buffer := ring2 })
    | none => none

/-! ## MPSC queue (src/a19_concurrent/src/queue/mpsc_queue.rs) -/

/-- Embeds `MpscNode<T>` (mpsc_queue.rs lines 10-13); field-identical to
`SpscNode<T>`. -/
structure MpscNode (T : Type) where
  id : Nat
  value : Option T
deriving DecidableEq

/-- Embeds `MpscQueue<T>` (mpsc_queue.rs lines 68-74). -/
structure MpscQueue (T : Type) where
  mask : Nat
  ring_buffer : Nat → MpscNode T
  capacity : Nat
  sequence_number : Nat
  producer : Nat

/-- Embeds `MpscQueue::new` (mpsc_queue.rs lines 81-104). -/
def MpscQueue.new (T : Type) (queue_size : Nat) : MpscQueue T :=
  let power_of_2 := roundToPowerOfTwo queue_size
  { mask := power_of_2 - 1
    ring_buffer := fun _ => { id := 0, value := none }
    capacity := power_of_2
    sequence_number := 1
    producer := 1 }

/-- Embeds `MpscQueue::pos` (mpsc_queue.rs lines 106-109). -/
def MpscQueue.pos {T : Type} (q : MpscQueue T) (index : Nat) : Nat :=
  index &&& q.mask

/-- Embeds `MpscQueue::offer` (mpsc_queue.rs lines 197-223).  The producer
cursor is advanced with `compare_exchange_weak`; in a sequential call the
cursor still holds the value just loaded, so the compare-exchange succeeds
and the slot is claimed exactly as in the SPSC queue.  The occupied-slot
branch yields and retries forever in a sequential call (`none`). -/
def MpscQueue.offer {T : Type} (q : MpscQueue T) (value : T) : Option (Bool × MpscQueue T) :=
  let p_index := q.producer
  let c_index := q.sequence_number
  if p_index < q.capacity ∨ p_index - q.capacity < c_index then
    let p := q.pos p_index
    if (q.ring_buffer p).id = 0 then
      some (true,
        { q with
            producer := p_index + 1
            ring_buffer := Function.update q.ring_buffer p { id := p_index, value := some value } })
    else none
  else some (false, q)

/-- Embeds `MpscQueue::poll` (mpsc_queue.rs lines 115-143).  As in the SPSC
queue, a stamp mismatch repeats with an unchanged state; here the loop
counts retries and panics past 10^9 (line 134), so the call still never
returns normally and is modelled as `none`.  (The retry accounting itself
is studied separately through `mpscPollRetry`.) -/
def MpscQueue.poll {T : Type} (q : MpscQueue T) : Option (Option T × MpscQueue T) :=
  let s_index := q.sequence_number
  let p_index := q.producer
  if p_index > s_index then
    let last_pos := q.pos s_index
    let node := q.ring_buffer last_pos
    if node.id = s_index then
      some (node.value,
        { q with
            sequence_number := s_index + 1
            ring_buffer := Function.update q.ring_buffer last_pos { id := 0, value := none } })
    else none
  else some (none, q)

/-- Embeds the per-slot retrieval loop of `MpscQueue::drain` (mpsc_queue.rs
lines 161-187); identical to the SPSC retrieval loop except that a
persistent stamp mismatch panics after 10^9 retries (line 182) instead of
spinning forever — in either case the call does not return normally
(`none`; the retry accounting is studied through `mpscDrainSlotWait`). -/
def mpscDrainLoop {T : Type} (mask : Nat) :
    (Nat → MpscNode T) → Nat → Nat → Nat → Option (List T × (Nat → MpscNode T))
  | ring, _, _, 0 => some ([], ring)
  | ring, s_index, i, r + 1 =>
    let p := (s_index + i) &&& mask
    let node := ring p
    if node.id = s_index + i then
      match node.value with
      | none => none
      | some t_value =>
        match mpscDrainLoop mask (Function.update ring p { id := 0, value := none }) s_index (i + 1) r with
        | some (vs, ring2) => some (t_value :: vs, ring2)
        | none => none
    else none

/-- Embeds `MpscQueue::drain` (mpsc_queue.rs lines 150-191).  The outer
`loop` exits on its first iteration in both branches, leaving the same
structure as the SPSC drain. -/
def MpscQueue.drain {T : Type} (q : MpscQueue T) (limit : Nat) :
    Option (List T × Nat × MpscQueue T) :=
  let p_index := q.producer
  let s_index := q.sequence_number
  if p_index ≤ s_index then some ([], 0, q)
  else
    let request := min limit (p_index - s_index)
    match mpscDrainLoop q.mask q.ring_buffer s_index 0 request with
    | some (vs, ring2) =>
      some (vs, request, { q with sequence_number := s_index + request, ring_buffer := ring2 })
    | none => none

/-- Field-wise conversion used to transfer sequential facts between the two
structurally identical queue embeddings. -/
def MpscNode.toSpsc {T : Type} (n : MpscNode T) : SpscNode T :=
  { id := n.id, value := n.value }

/-- Field-wise conversion of a whole MPSC queue state. -/
def MpscQueue.toSpsc {T : Type} (q : MpscQueue T) : SpscQueue T :=
  { mask := q.mask
    ring_buffer := fun i => (q.ring_buffer i).toSpsc
    capacity := q.capacity
    sequence_number := q.sequence_number
    producer := q.producer }

/-! ## Sequential drivers for the queue claims -/

/-- Runs a sequence of `offer` calls, requiring every call to return and
succeed (the setting of the delivery claims: n successful offers). -/
def spscOfferSeq {T : Type} (q : SpscQueue T) : List T → Option (SpscQueue T)
  | [] => some q
  | v :: vs =>
    match q.offer v with
    | some (true, q2) => spscOfferSeq q2 vs
    | _ => none

/-- Runs a sequence of `offer` calls and records each boolean result. -/
def spscOfferBools {T : Type} (q : SpscQueue T) : List T → Option (List Bool)
  | [] => some []
  | v :: vs =>
    match q.offer v with
    | some (b, q2) => (spscOfferBools q2 vs).map (fun bs => b :: bs)
    | none => none

/-- Runs `n` successive `poll` calls and records each result. -/
def spscPollResults {T : Type} (q : SpscQueue T) : Nat → Option (List (Option T))
  | 0 => some []
  | n + 1 =>
    match q.poll with
    | some (r, q2) => (spscPollResults q2 n).map (fun rs => r :: rs)
    | none => none

/-- MPSC analogue of `spscOfferSeq`. -/
def mpscOfferSeq {T : Type} (q : MpscQueue T) : List T → Option (MpscQueue T)
  | [] => some q
  | v :: vs =>
    match q.offer v with
    | some (true, q2) => mpscOfferSeq q2 vs
    | _ => none

/-- MPSC analogue of `spscOfferBools`. -/
def mpscOfferBools {T : Type} (q : MpscQueue T) : List T → Option (List Bool)
  | [] => some []
  | v :: vs =>
    match q.offer v with
    | some (b, q2) => (mpscOfferBools q2 vs).map (fun bs => b :: bs)
    | none => none

/-- MPSC analogue of `spscPollResults`. -/
def mpscPollResults {T : Type} (q : MpscQueue T) : Nat → Option (List (Option T))
  | 0 => some []
  | n + 1 =>
    match q.poll with
    | some (r, q2) => (mpscPollResults q2 n).map (fun rs => r :: rs)
    | none => none

/-! ## Spin-loop retry structure (claim about retry ceilings)

Each retry loop in the two queue files is abstracted over the sequence of
boolean observations its exit test makes: `obs k` tells whether the k-th
attempt sees its condition satisfied.  The fuel argument counts how many
further attempts we watch; running out of fuel while the loop is still
going means the loop is still spinning at that point. -/

/-- Outcome of watching a retry loop for a bounded number of attempts. -/
inductive SpinOutcome where
  | done
  | spinning
  | aborted
deriving DecidableEq

/-- Embeds the per-slot wait of `SpscQueue::drain` (spsc_queue.rs lines
179-194): on a stamp mismatch it calls `thread::yield_now()` and retries;
there is no retry counter and no panic. -/
def spscDrainSlotWait (obs : Nat → Bool) (k : Nat) : Nat → SpinOutcome
  | 0 => SpinOutcome.spinning
  | fuel + 1 =>
    if obs k then SpinOutcome.done else spscDrainSlotWait obs (k + 1) fuel

/-- Embeds the retry structure of `SpscQueue::poll` (spsc_queue.rs lines
134-158): on a stamp mismatch the loop simply goes around again — no yield,
no counter, no panic. -/
def spscPollRetry (obs : Nat → Bool) (k : Nat) : Nat → SpinOutcome
  | 0 => SpinOutcome.spinning
  | fuel + 1 =>
    if obs k then SpinOutcome.done else spscPollRetry obs (k + 1) fuel

/-- Embeds the occupied-slot wait of `SpscQueue::offer` (spsc_queue.rs
lines 205-222): yields and retries, no counter, no panic. -/
def spscOfferWait (obs : Nat → Bool) (k : Nat) : Nat → SpinOutcome
  | 0 => SpinOutcome.spinning
  | fuel + 1 =>
    if obs k then SpinOutcome.done else spscOfferWait obs (k + 1) fuel

/-- Embeds the occupied-slot wait of `MpscQueue::offer` (mpsc_queue.rs
lines 199-222): yields and retries, no counter, no panic. -/
def mpscOfferWait (obs : Nat → Bool) (k : Nat) : Nat → SpinOutcome
  | 0 => SpinOutcome.spinning
  | fuel + 1 =>
    if obs k then SpinOutcome.done else mpscOfferWait obs (k + 1) fuel

/-- Embeds the retry accounting of `MpscQueue::poll` (mpsc_queue.rs lines
116-137): `i` starts at 0; each stamp mismatch increments `i` and panics
once `i > 1_000_000_000`.  There is no yield in this loop. -/
def mpscPollRetry (obs : Nat → Bool) (i : Nat) : Nat → SpinOutcome
  | 0 => SpinOutcome.spinning
  | fuel + 1 =>
    if obs i then SpinOutcome.done
    else if i + 1 > 1000000000 then SpinOutcome.aborted
    else mpscPollRetry obs (i + 1) fuel

/-- Embeds the per-slot wait of `MpscQueue::drain` (mpsc_queue.rs lines
162-185): `fail_count` starts at 0; each stamp mismatch yields, increments
`fail_count` and panics once `fail_count > 1_000_000_000`. -/
def mpscDrainSlotWait (obs : Nat → Bool) (fail_count : Nat) : Nat → SpinOutcome
  | 0 => SpinOutcome.spinning
  | fuel + 1 =>
    if obs fail_count then SpinOutcome.done
    else if fail_count + 1 > 1000000000 then SpinOutcome.aborted
    else mpscDrainSlotWait obs (fail_count + 1) fuel

/-! ## MRSW double-buffered map (src/a19_concurrent/src/map/mrsw_map.rs) -/

/-- Embeds the constant `READER` (mrsw_map.rs line 9). -/
def READER : Nat := 1

/-- Embeds the constant `WRITER` (mrsw_map.rs line 10). -/
def WRITER : Nat := 2

/-- Embeds `MapContainer<K, V, E>` (mrsw_map.rs lines 20-29): the hash map
(modelled as `K → Option V`), the live-reader count, the READER/WRITER
state tag, and the pending-event queue (a `VecDeque`, FIFO). -/
structure MapContainer (K V E : Type) where
  map : K → Option V
  reader_count : Nat
  state : Nat
  event_stream : List E

/-- Embeds `MrswMap<K, V, E, TApplyChange>` (mrsw_map.rs lines 72-80).  The
`AtomicPtr` `current_reader` can only reference one of the two containers;
it is modelled by which one (`true` for `map1`).  In `MrswMap::new`
(lines 89-116) the pointer is taken from the local variable holding the
first container just before that variable is moved into the struct, so the
published pointer designates the container built from `map1`; the
caller-supplied applier is the `apply_change` field. -/
structure MrswMap (K V E : Type) where
  current_reader : Bool
  map1 : MapContainer K V E
  map2 : MapContainer K V E
  apply_change : (K → Option V) → E → (K → Option V)

/-- Embeds `MrswMap::new` (mrsw_map.rs lines 89-116): container one starts
tagged READER, container two tagged WRITER, both with reader count 0 and an
empty pending-event queue, and the current pointer referencing container
one. -/
def MrswMap.new {K V E : Type} (map1 map2 : K → Option V)
    (apply_change : (K → Option V) → E → (K → Option V)) : MrswMap K V E :=
  { current_reader := true
    map1 := { map := map1, reader_count := 0, state := READER, event_stream := [] }
    map2 := { map := map2, reader_count := 0, state := WRITER, event_stream := [] }
    apply_change := apply_change }

/-- Embeds `WriterMap::add_event` for `MrswMap` (mrsw_map.rs lines
179-187): the container whose state tag is WRITER gets the event applied
immediately through the applier; the other container gets the event pushed
onto its pending-event queue. -/
def MrswMap.add_event {K V E : Type} (q : MrswMap K V E) (event : E) : MrswMap K V E :=
  if q.map1.state = WRITER then
    { q with
        map1 := { q.map1 with map := q.apply_change q.map1.map event }
        map2 := { q.map2 with event_stream := q.map2.event_stream ++ [event] } }
  else
    { q with
        map2 := { q.map2 with map := q.apply_change q.map2.map event }
        map1 := { q.map1 with event_stream := q.map1.event_stream ++ [event] } }

/-- Embeds `WriterMap::commit` for `MrswMap` (mrsw_map.rs lines 189-222):
with `(writer, reader)` selected by the WRITER tag, the writer is retagged
READER and the reader WRITER; the current pointer is then stored to
`reader` — the container just retagged WRITER; the loop then waits for that
container's reader count to reach zero (in a sequential call a non-zero
count never changes, modelled as `none`), and finally the pending-event
queue of that container is drained front to back through the applier. -/
def MrswMap.commit {K V E : Type} (q : MrswMap K V E) : Option (MrswMap K V E) :=
  if q.map1.state = WRITER then
    if q.map2.reader_count = 0 then
      some
        { q with
            map1 := { q.map1 with state := READER }
            map2 :=
              { q.map2 with
                  state := WRITER
                  map := q.map2.event_stream.foldl q.apply_change q.map2.map
                  event_stream := [] }
            current_reader := false }
    else none
  else
    if q.map1.reader_count = 0 then
      some
        { q with
            map2 := { q.map2 with state := READER }
            map1 :=
              { q.map1 with
                  state := WRITER
                  map := q.map1.event_stream.foldl q.apply_change q.map1.map
                  event_stream := [] }
            current_reader := true }
    else none

/-- Embeds `ReaderMap::get` for `MrswMap` (mrsw_map.rs lines 237-244): the
container referenced by the current pointer has its reader count
`fetch_add(1)`-ed on entry (line 239), the key is looked up and the action
applied, and then the count is `fetch_add(1)`-ed again (line 242) before
the result is returned. -/
def MrswMap.get {K V E R : Type} (q : MrswMap K V E) (key : K) (act : Option V → R) :
    R × MrswMap K V E :=
  if q.current_reader then
    (act (q.map1.map key),
      { q with map1 := { q.map1 with reader_count := q.map1.reader_count + 1 + 1 } })
  else
    (act (q.map2.map key),
      { q with map2 := { q.map2 with reader_count := q.map2.reader_count + 1 + 1 } })

/-- The container the current pointer references. -/
def MrswMap.currentContainer {K V E : Type} (q : MrswMap K V E) : MapContainer K V E :=
  if q.current_reader then q.map1 else q.map2

/-- The container `add_event`/`commit` select as the writer (mrsw_map.rs
lines 180-184 and 190-194): the one whose state tag is WRITER. -/
def MrswMap.writerContainer {K V E : Type} (q : MrswMap K V E) : MapContainer K V E :=
  if q.map1.state = WRITER then q.map1 else q.map2

/-- The container `add_event`/`commit` select as the reader: the one whose
state tag is not WRITER. -/
def MrswMap.readerContainer {K V E : Type} (q : MrswMap K V E) : MapContainer K V E :=
  if q.map1.state = WRITER then q.map2 else q.map1

/-- A single writer-side call: `add_event` or `commit`. -/
inductive WriterOp (E : Type) where
  | add (event : E)
  | commit

/-- Runs a sequence of writer-side calls (the sequential writer setting of
the MRSW claims); `none` when a commit spins forever. -/
def runWriter {K V E : Type} (q : MrswMap K V E) : List (WriterOp E) → Option (MrswMap K V E)
  | [] => some q
  | WriterOp.add e :: rest => runWriter (q.add_event e) rest
  | WriterOp.commit :: rest =>
    match q.commit with
    | some q2 => runWriter q2 rest
    | none => none

/-- All events passed to `add_event` by a call sequence, in call order. -/
def addedEvents {E : Type} : List (WriterOp E) → List E
  | [] => []
  | WriterOp.add e :: rest => e :: addedEvents rest
  | WriterOp.commit :: rest => addedEvents rest

/-- One step of the committed/pending event bookkeeping: an add appends to
the pending list, a commit moves the pending list onto the committed
list. -/
def splitStep {E : Type} (cp : List E × List E) : WriterOp E → List E × List E
  | WriterOp.add e => (cp.1, cp.2 ++ [e])
  | WriterOp.commit => (cp.1 ++ cp.2, [])

/-- Committed and still-pending events of a call sequence. -/
def splitEvents {E : Type} (ops : List (WriterOp E)) : List E × List E :=
  ops.foldl splitStep ([], [])

/-! ## Byte buffer (src/a19_concurrent/src/buffer/atomic_buffer.rs) -/

/-- Embeds `AtomicByteBufferInt` (atomic_buffer.rs lines 54-58): byte
storage is a function from index to byte value (each below 256 whenever it
was written by the operations here). -/
structure AtomicByteBufferInt where
  capacity : Nat
  buffer : Nat → Nat
  max_message_size : Nat

/-- Embeds `AtomicByteBufferInt::new` (atomic_buffer.rs lines 62-71):
capacity rounded up to a power of two, zero-filled storage, and
`max_message_size = capacity >> 3`. -/
def AtomicByteBufferInt.new (size : Nat) : AtomicByteBufferInt :=
  let correct_size := roundToPowerOfTwo size
  { capacity := correct_size
    buffer := fun _ => 0
    max_message_size := correct_size >>> 3 }

/-- Big-endian read of `w` bytes starting at `p` (byteorder's
`BigEndian::read_uXX` on the first `w` bytes of the slice). -/
def readWordBE (buffer : Nat → Nat) : Nat → Nat → Nat
  | _, 0 => 0
  | p, w + 1 => buffer p * 256 ^ w + readWordBE buffer (p + 1) w

/-- Big-endian write of the `w`-byte value `v` starting at `p` (byteorder's
`BigEndian::write_uXX` into the first `w` bytes of the slice). -/
def writeWordBE (buffer : Nat → Nat) : Nat → Nat → Nat → (Nat → Nat)
  | _, 0, _ => buffer
  | p, w + 1, v => writeWordBE (Function.update buffer p (v / 256 ^ w % 256)) (p + 1) w v

/-- Embeds `DirectByteBuffer::get_u16` for `AtomicByteBufferInt`
(atomic_buffer.rs lines 182-184): slices `position..position + 2` (a panic
on an out-of-range slice is `none`) and reads big-endian. -/
def AtomicByteBufferInt.get_u16 (b : AtomicByteBufferInt) (position : Nat) : Option Nat :=
  if position + 2 ≤ b.capacity then some (readWordBE b.buffer position 2) else none

/-- Embeds `DirectByteBuffer::put_u16` (atomic_buffer.rs lines 191-196). -/
def AtomicByteBufferInt.put_u16 (b : AtomicByteBufferInt) (position value : Nat) :
    Option AtomicByteBufferInt :=
  if position + 2 ≤ b.capacity then
    some { b with buffer := writeWordBE b.buffer position 2 value }
  else none

/-- Embeds `DirectByteBuffer::get_u32` (atomic_buffer.rs lines 142-144):
slices `position..calculate_offset_32 position`, i.e. `position + 4`. -/
def AtomicByteBufferInt.get_u32 (b : AtomicByteBufferInt) (position : Nat) : Option Nat :=
  if position + 4 ≤ b.capacity then some (readWordBE b.buffer position 4) else none

/-- Embeds `DirectByteBuffer::put_u32` (atomic_buffer.rs lines 151-156). -/
def AtomicByteBufferInt.put_u32 (b : AtomicByteBufferInt) (position value : Nat) :
    Option AtomicByteBufferInt :=
  if position + 4 ≤ b.capacity then
    some { b with buffer := writeWordBE b.buffer position 4 value }
  else none

/-- Embeds `DirectByteBuffer::get_u64` (atomic_buffer.rs lines 104-106). -/
def AtomicByteBufferInt.get_u64 (b : AtomicByteBufferInt) (position : Nat) : Option Nat :=
  if position + 8 ≤ b.capacity then some (readWordBE b.buffer position 8) else none

/-- Embeds `DirectByteBuffer::put_u64` (atomic_buffer.rs lines 112-117). -/
def AtomicByteBufferInt.put_u64 (b : AtomicByteBufferInt) (position value : Nat) :
    Option AtomicByteBufferInt :=
  if position + 8 ≤ b.capacity then
    some { b with buffer := writeWordBE b.buffer position 8 value }
  else none

/-- Embeds `AtomicByteBuffer::get_u64_volatile` (atomic_buffer.rs lines
267-271): same slice bound `position + 8` as the non-volatile variant; the
acquire fence after the load has no sequential effect. -/
def AtomicByteBufferInt.get_u64_volatile (b : AtomicByteBufferInt) (position : Nat) : Option Nat :=
  if position + 8 ≤ b.capacity then some (readWordBE b.buffer position 8) else none

/-- Embeds `AtomicByteBuffer::put_u64_volatile` (atomic_buffer.rs lines
278-284). -/
def AtomicByteBufferInt.put_u64_volatile (b : AtomicByteBufferInt) (position value : Nat) :
    Option AtomicByteBufferInt :=
  if position + 8 ≤ b.capacity then
    some { b with buffer := writeWordBE b.buffer position 8 value }
  else none

/-- Embeds `AtomicByteBuffer::get_u32_volatile` (atomic_buffer.rs lines
314-318): the source slices `position..calculate_offset_long position`,
i.e. `position + 8`, even though only the first four bytes are decoded, so
the call panics (`none`) unless `position + 8 ≤ capacity`. -/
def AtomicByteBufferInt.get_u32_volatile (b : AtomicByteBufferInt) (position : Nat) : Option Nat :=
  if position + 8 ≤ b.capacity then some (readWordBE b.buffer position 4) else none

/-- Embeds `AtomicByteBuffer::put_u32_volatile` (atomic_buffer.rs lines
325-331): the slice bound is again `position + 8` while only four bytes are
written. -/
def AtomicByteBufferInt.put_u32_volatile (b : AtomicByteBufferInt) (position value : Nat) :
    Option AtomicByteBufferInt :=
  if position + 8 ≤ b.capacity then
    some { b with buffer := writeWordBE b.buffer position 4 value }
  else none

/-! ## Concrete instances used by the witnesses -/

/-- Empty initial map for the concrete MRSW runs. -/
def mrswM0 : Nat → Option Nat := fun _ => none

/-- Concrete applier (plays the role of the test's `TestApplyChange`,
mrsw_map.rs lines 262-271): an event `(k, v)` inserts `v` at key `k`. -/
def mrswApplier : (Nat → Option Nat) → Nat × Nat → (Nat → Option Nat) :=
  fun m e => Function.update m e.1 (some e.2)

/-- The MRSW state reached from fresh equal empty maps by
`add_event (1, 5)` followed by `commit()`. -/
def mrswQ1 : MrswMap Nat Nat (Nat × Nat) :=
  { current_reader := true
    map1 := { map := Function.update mrswM0 1 (some 5), reader_count := 0, state := WRITER, event_stream := [] }
    map2 := { map := Function.update mrswM0 1 (some 5), reader_count := 0, state := READER, event_stream := [] }
    apply_change := mrswApplier }

/-- A concrete capacity-4 SPSC queue holding the single pending value 42
(the state reached from `new 4` by one successful `offer 42`). -/
def spscQ1 : SpscQueue Nat :=
  { mask := 3
    ring_buffer := Function.update (fun _ => { id := 0, value := none }) 1 { id := 1, value := some 42 }
    capacity := 4
    sequence_number := 1
    producer := 2 }

/-- MPSC twin of `spscQ1`. -/
def mpscQ1 : MpscQueue Nat :=
  { mask := 3
    ring_buffer := Function.update (fun _ => { id := 0, value := none }) 1 { id := 1, value := some 42 }
    capacity := 4
    sequence_number := 1
    producer := 2 }

/-! ## Reachable-state invariant of the sequential queues

`SInv q pend` says the queue state is one reachable from a fresh queue by a
sequential mix of offers, polls and drains, with `pend` the values offered
but not yet consumed, oldest first. -/

/-- Sequential reachability invariant for the SPSC embedding (also used,
through `MpscQueue.toSpsc`, for the MPSC embedding). -/
structure SInv {T : Type} (q : SpscQueue T) (pend : List T) : Prop where
  mask_eq : q.mask = q.capacity - 1
  cap_pow : ∃ k, q.capacity = 2 ^ k
  seq_pos : 1 ≤ q.sequence_number
  seq_le : q.sequence_number ≤ q.producer
  prod_le : q.producer ≤ q.sequence_number + q.capacity
  len_eq : pend.length = q.producer - q.sequence_number
  live : ∀ i, i < pend.length →
    q.ring_buffer ((q.sequence_number + i) % q.capacity) =
      { id := q.sequence_number + i, value := pend[i]? }
  dead : ∀ j, j < q.capacity →
    (∀ i, i < pend.length → j ≠ (q.sequence_number + i) % q.capacity) →
    q.ring_buffer j = { id := 0, value := none }

/-- The MPSC invariant is the SPSC invariant of the converted state. -/
def MInv {T : Type} (q : MpscQueue T) (pend : List T) : Prop :=
  SInv q.toSpsc pend

/-- Sequential-writer invariant of the MRSW map: `cmtd` are the events both
containers have incorporated (committed), `pend` the events added since the
last commit.  The WRITER-tagged container has every event applied directly
and an empty queue; the READER-tagged container lags by exactly the pending
events, which sit in its queue in add order. -/
structure MrswInv {K V E : Type} (ap : (K → Option V) → E → (K → Option V))
    (m0 : K → Option V) (q : MrswMap K V E) (cmtd pend : List E) : Prop where
  apply_eq : q.apply_change = ap
  states : (q.map1.state = WRITER ∧ q.map2.state = READER) ∨
    (q.map1.state = READER ∧ q.map2.state = WRITER)
  count1 : q.map1.reader_count = 0
  count2 : q.map2.reader_count = 0
  writer_map : q.writerContainer.map = (cmtd ++ pend).foldl ap m0
  writer_queue : q.writerContainer.event_stream = []
  reader_map : q.readerContainer.map = cmtd.foldl ap m0
  reader_queue : q.readerContainer.event_stream = pend

/-! # Theorems -/

theorem cap_pos {T : Type} {q : SpscQueue T} {pend : List T} (h : SInv q pend) :
    0 < q.capacity := by
  obtain ⟨k, hk⟩ := h.cap_pow
  rw [hk]
  exact Nat.pos_pow_of_pos k (by decide)

theorem pos_eq_mod {T : Type} {q : SpscQueue T} {pend : List T} (h : SInv q pend) (x : Nat) :
    q.pos x = x % q.capacity := by
  obtain ⟨k, hk⟩ := h.cap_pow
  rw [SpscQueue.pos, h.mask_eq, hk, Nat.and_pow_two_sub_one_eq_mod]

theorem mod_ne_of_lt_sub {cap a b : Nat} (hab : a < b) (hlt : b - a < cap) :
    a % cap ≠ b % cap := by
  intro hmod
  have hdvd : cap ∣ b - a := (Nat.modEq_iff_dvd' (le_of_lt hab)).mp hmod
  have hpos : 0 < b - a := Nat.sub_pos_of_lt hab
  have := Nat.le_of_dvd hpos hdvd
  omega

theorem rptAux_pow (n : Nat) : ∀ fuel acc, (∃ k, acc = 2 ^ k) → ∃ k, rptAux n fuel acc = 2 ^ k
  | 0, _, hacc => hacc
  | fuel + 1, acc, hacc => by
    rw [rptAux]
    split
    · exact hacc
    · obtain ⟨k, hk⟩ := hacc
      exact rptAux_pow n fuel (acc * 2) ⟨k + 1, by rw [hk]; ring⟩

theorem roundToPowerOfTwo_pow (n : Nat) : ∃ k, roundToPowerOfTwo n = 2 ^ k :=
  rptAux_pow n n 1 ⟨0, rfl⟩

theorem SInv_new (T : Type) (n : Nat) : SInv (SpscQueue.new T n) [] := by
  refine ⟨rfl, roundToPowerOfTwo_pow n, le_refl 1, le_refl 1, Nat.le_add_right 1 _, rfl, ?_, ?_⟩
  · intro i hi
    simp at hi
  · intro j _ _
    rfl

theorem spsc_offer_spec {T : Type} {q : SpscQueue T} {pend : List T} (h : SInv q pend)
    (hroom : pend.length < q.capacity) (v : T) :
    ∃ q2, q.offer v = some (true, q2) ∧ SInv q2 (pend ++ [v]) ∧ q2.capacity = q.capacity := by
  have hcap : 0 < q.capacity := cap_pos h
  have h1 := h.seq_pos
  have h2 := h.seq_le
  have h3 := h.prod_le
  have h4 := h.len_eq
  have hguard : q.producer < q.capacity ∨ q.producer - q.capacity < q.sequence_number := by
    omega
  have hposp : q.pos q.producer = q.producer % q.capacity := pos_eq_mod h _
  have hnotin : ∀ i, i < pend.length →
      q.producer % q.capacity ≠ (q.sequence_number + i) % q.capacity := by
    intro i hi hmod
    exact mod_ne_of_lt_sub (a := q.sequence_number + i) (b := q.producer)
      (by omega) (by omega) hmod.symm
  have hdead : q.ring_buffer (q.producer % q.capacity) = { id := 0, value := none } :=
    h.dead _ (Nat.mod_lt _ hcap) hnotin
  refine ⟨{ q with
      producer := q.producer + 1
      ring_buffer := Function.update q.ring_buffer (q.producer % q.capacity)
        { id := q.producer, value := some v } }, ?_, ?_, rfl⟩
  · unfold SpscQueue.offer
    rw [if_pos hguard]
    simp [hposp, hdead]
  · constructor
    · exact h.mask_eq
    · exact h.cap_pow
    · exact h1
    · exact Nat.le_succ_of_le h2
    · dsimp only
      omega
    · dsimp only
      simp
      omega
    · intro i hi
      dsimp only at hi ⊢
      simp only [List.length_append, List.length_singleton] at hi
      rcases Nat.lt_or_ge i pend.length with hilt | hige
      · rw [Function.update_noteq (hnotin i hilt).symm, h.live i hilt,
          List.getElem?_append_left hilt]
      · have hieq : i = pend.length := by omega
        subst hieq
        have hpe : q.sequence_number + pend.length = q.producer := by omega
        rw [hpe, Function.update_same, List.getElem?_concat_length]
    · intro j hj hnot
      dsimp only at hj hnot ⊢
      have hjp : j ≠ q.producer % q.capacity := by
        have := hnot pend.length (by simp)
        have hpe : q.sequence_number + pend.length = q.producer := by omega
        rw [hpe] at this
        exact this
      rw [Function.update_noteq hjp]
      exact h.dead j hj (fun i hi => hnot i (by simp; omega))

theorem spsc_offer_full {T : Type} {q : SpscQueue T} {pend : List T} (h : SInv q pend)
    (hfull : pend.length = q.capacity) (v : T) :
    q.offer v = some (false, q) := by
  have h1 := h.seq_pos
  have h2 := h.seq_le
  have h3 := h.prod_le
  have h4 := h.len_eq
  unfold SpscQueue.offer
  rw [if_neg (by omega)]

theorem spsc_poll_nil {T : Type} {q : SpscQueue T} (h : SInv q []) :
    q.poll = some (none, q) := by
  have h2 := h.seq_le
  have h4 := h.len_eq
  simp only [List.length_nil] at h4
  unfold SpscQueue.poll
  rw [if_neg (by omega)]

theorem spsc_poll_cons {T : Type} {q : SpscQueue T} {v : T} {rest : List T}
    (h : SInv q (v :: rest)) :
    ∃ q2, q.poll = some (some v, q2) ∧ SInv q2 rest := by
  have hcap : 0 < q.capacity := cap_pos h
  have h1 := h.seq_pos
  have h2 := h.seq_le
  have h3 := h.prod_le
  have h4 := h.len_eq
  simp only [List.length_cons] at h4
  have hgt : q.producer > q.sequence_number := by omega
  have hposs : q.pos q.sequence_number = q.sequence_number % q.capacity := pos_eq_mod h _
  have hlive0 := h.live 0 (by simp)
  simp only [Nat.add_zero, List.getElem?_cons_zero] at hlive0
  refine ⟨{ q with
      sequence_number := q.sequence_number + 1
      ring_buffer := Function.update q.ring_buffer (q.sequence_number % q.capacity)
        { id := 0, value := none } }, ?_, ?_⟩
  · unfold SpscQueue.poll
    rw [if_pos hgt]
    simp [hposs, hlive0]
  · constructor
    · exact h.mask_eq
    · exact h.cap_pow
    · exact Nat.le_succ_of_le h1
    · dsimp only
      omega
    · dsimp only
      omega
    · dsimp only
      omega
    · intro i hi
      dsimp only at hi ⊢
      have hne : (q.sequence_number + 1 + i) % q.capacity ≠ q.sequence_number % q.capacity := by
        intro hmod
        exact mod_ne_of_lt_sub (a := q.sequence_number) (b := q.sequence_number + 1 + i)
          (by omega) (by omega) hmod.symm
      rw [Function.update_noteq hne]
      have hidx : q.sequence_number + 1 + i = q.sequence_number + (i + 1) := by omega
      rw [hidx, h.live (i + 1) (by simp; omega), List.getElem?_cons_succ]
    · intro j hj hnot
      dsimp only at hj hnot ⊢
      rcases eq_or_ne j (q.sequence_number % q.capacity) with hje | hje
      · rw [hje, Function.update_same]
      · rw [Function.update_noteq hje]
        refine h.dead j hj ?_
        intro i hi
        rcases i with _ | i2
        · simpa using hje
        · have hidx : q.sequence_number + (i2 + 1) = q.sequence_number + 1 + i2 := by omega
          rw [hidx]
          exact hnot i2 (by simp at hi; omega)

theorem spsc_offer_false_iff {T : Type} {q : SpscQueue T} {pend : List T} (h : SInv q pend)
    (v : T) :
    (q.offer v = some (false, q) ↔ q.sequence_number ≤ q.producer - q.capacity)
    ∧ (q.offer v = some (false, q) ↔ pend.length = q.capacity) := by
  have h1 := h.seq_pos
  have h2 := h.seq_le
  have h3 := h.prod_le
  have h4 := h.len_eq
  rcases Nat.lt_or_ge pend.length q.capacity with hlt | hge
  · obtain ⟨q2, hoff, _⟩ := spsc_offer_spec h hlt v
    rw [hoff]
    constructor
    · constructor
      · intro hcontr
        injection hcontr with hcontr
        injection hcontr with hb
        exact absurd hb (by simp)
      · intro hc
        omega
    · constructor
      · intro hcontr
        injection hcontr with hcontr
        injection hcontr with hb
        exact absurd hb (by simp)
      · intro hc
        omega
  · have hfull : pend.length = q.capacity := by omega
    rw [spsc_offer_full h hfull v]
    constructor
    · simp only [true_iff, Option.some.injEq, Prod.mk.injEq, and_self]
      omega
    · simp [hfull]

theorem spscDrainLoop_spec {T : Type} {cap k : Nat} (hk : cap = 2 ^ k)
    (s : Nat) (pend : List T) (hlen : pend.length ≤ cap) :
    ∀ (r : Nat) (ring : Nat → SpscNode T) (j : Nat), j + r ≤ pend.length →
    (∀ i, j ≤ i → i < pend.length → ring ((s + i) % cap) = { id := s + i, value := pend[i]? }) →
    ∃ ring2, spscDrainLoop (cap - 1) ring s j r = some ((pend.drop j).take r, ring2) ∧
      (∀ x, (∀ i, j ≤ i → i < j + r → x ≠ (s + i) % cap) → ring2 x = ring x) ∧
      (∀ i, j ≤ i → i < j + r → ring2 ((s + i) % cap) = { id := 0, value := none }) := by
  have hcap : 0 < cap := by rw [hk]; exact Nat.pos_pow_of_pos k (by decide)
  intro r
  induction r with
  | zero =>
    intro ring j _ _
    refine ⟨ring, by simp [spscDrainLoop], ?_, ?_⟩
    · intro x _
      rfl
    · intro i hji hi
      omega
  | succ r ih =>
    intro ring j hjr hlive
    have hj : j < pend.length := by omega
    have hmask : (s + j) &&& (cap - 1) = (s + j) % cap := by
      rw [hk]
      exact Nat.and_pow_two_sub_one_eq_mod _ _
    have hnode := hlive j (le_refl j) hj
    have hval : pend[j]? = some pend[j] := List.getElem?_eq_getElem hj
    have hne_inner : ∀ i, j + 1 ≤ i → i < pend.length →
        (s + i) % cap ≠ (s + j) % cap := by
      intro i hji hi hmod
      exact mod_ne_of_lt_sub (a := s + j) (b := s + i) (by omega) (by omega) hmod.symm
    have hlive1 : ∀ i, j + 1 ≤ i → i < pend.length →
        Function.update ring ((s + j) % cap) { id := 0, value := none } ((s + i) % cap) =
          { id := s + i, value := pend[i]? } := by
      intro i hji hi
      rw [Function.update_noteq (hne_inner i hji hi)]
      exact hlive i (by omega) hi
    obtain ⟨ring2, hloop, huntouched, hcleared⟩ :=
      ih (Function.update ring ((s + j) % cap) { id := 0, value := none }) (j + 1)
        (by omega) hlive1
    refine ⟨ring2, ?_, ?_, ?_⟩
    · rw [spscDrainLoop]
      simp only [hmask, hnode, if_true, hval, hloop]
      rw [List.drop_eq_getElem_cons hj, List.take_succ_cons]
    · intro x hx
      rw [huntouched x (fun i hji hi => hx i (by omega) (by omega)),
        Function.update_noteq (hx j (le_refl j) (by omega))]
    · intro i hji hir
      rcases Nat.lt_or_ge j i with hlt | hge
      · exact hcleared i (by omega) (by omega)
      · have hij : i = j := by omega
        subst hij
        rw [huntouched ((s + i) % cap) (fun i2 hji2 hi2 =>
          (hne_inner i2 hji2 (by omega)).symm)]
        exact Function.update_same _ _ _

theorem spsc_drain_empty {T : Type} {q : SpscQueue T} (h : SInv q []) (limit : Nat) :
    q.drain limit = some ([], 0, q) := by
  have h2 := h.seq_le
  have h4 := h.len_eq
  simp only [List.length_nil] at h4
  unfold SpscQueue.drain
  rw [if_pos (by omega)]

theorem spsc_drain_spec {T : Type} {q : SpscQueue T} {pend : List T} (h : SInv q pend)
    (limit : Nat) :
    ∃ q2, q.drain limit = some (pend.take (min limit pend.length), min limit pend.length, q2) ∧
      q2.sequence_number = q.sequence_number + min limit pend.length ∧
      q2.producer = q.producer ∧ q2.capacity = q.capacity ∧
      SInv q2 (pend.drop (min limit pend.length)) := by
  have hcap : 0 < q.capacity := cap_pos h
  have h1 := h.seq_pos
  have h2 := h.seq_le
  have h3 := h.prod_le
  have h4 := h.len_eq
  obtain ⟨k, hk⟩ := h.cap_pow
  rcases pend with _ | ⟨v, rest⟩
  · refine ⟨q, ?_, by simp, rfl, rfl, ?_⟩
    · simpa using spsc_drain_empty h limit
    · simpa using h
  · set pend := v :: rest with hpend
    have hlenpos : 0 < pend.length := by simp [hpend]
    have hgt : ¬ q.producer ≤ q.sequence_number := by omega
    have hreq : min limit (q.producer - q.sequence_number) = min limit pend.length := by
      omega
    set request := min limit pend.length with hreqdef
    have hreqle : request ≤ pend.length := by omega
    have hlencap : pend.length ≤ q.capacity := by omega
    obtain ⟨ring2, hloop, huntouched, hcleared⟩ :=
      spscDrainLoop_spec hk q.sequence_number pend hlencap request q.ring_buffer 0
        (by omega) (fun i _ hi => h.live i hi)
    refine ⟨{ q with sequence_number := q.sequence_number + request, ring_buffer := ring2 },
      ?_, rfl, rfl, rfl, ?_⟩
    · unfold SpscQueue.drain
      rw [if_neg hgt]
      have hmask : q.mask = q.capacity - 1 := h.mask_eq
      rw [hreq, hmask]
      simp only [hloop, List.drop_zero]
    · constructor
      · exact h.mask_eq
      · exact h.cap_pow
      · dsimp only
        omega
      · dsimp only
        omega
      · dsimp only
        omega
      · dsimp only
        simp only [List.length_drop]
        omega
      · intro i hi
        dsimp only at hi ⊢
        simp only [List.length_drop] at hi
        have hut : ring2 ((q.sequence_number + request + i) % q.capacity) =
            q.ring_buffer ((q.sequence_number + request + i) % q.capacity) := by
          apply huntouched
          intro i2 _ hi2 hmod
          exact mod_ne_of_lt_sub (a := q.sequence_number + i2)
            (b := q.sequence_number + request + i) (by omega) (by omega) hmod.symm
        have hidx : q.sequence_number + request + i = q.sequence_number + (request + i) := by
          omega
        rw [hut, hidx, h.live (request + i) (by omega)]
        rw [List.getElem?_drop]
      · intro j hj hnot
        dsimp only at hj hnot ⊢
        by_cases hc : ∃ i2, i2 < request ∧ j = (q.sequence_number + i2) % q.capacity
        · obtain ⟨i2, hi2, hje⟩ := hc
          rw [hje]
          exact hcleared i2 (by omega) (by omega)
        · push_neg at hc
          have hut : ring2 j = q.ring_buffer j := by
            apply huntouched
            intro i2 _ hi2 hje
            exact hc i2 (by omega) hje
          rw [hut]
          apply h.dead j hj
          intro i hi
          rcases Nat.lt_or_ge i request with hlt | hge
          · exact hc i hlt
          · have hidx : q.sequence_number + i = q.sequence_number + request + (i - request) := by
              omega
            rw [hidx]
            apply hnot (i - request)
            simp only [List.length_drop]
            omega

theorem mpscNode_toSpsc_inj {T : Type} {a b : MpscNode T} (h : a.toSpsc = b.toSpsc) : a = b := by
  cases a
  cases b
  simp only [MpscNode.toSpsc, SpscNode.mk.injEq] at h
  simp [MpscNode.mk.injEq, h.1, h.2]

theorem toSpsc_inj {T : Type} {a b : MpscQueue T} (h : a.toSpsc = b.toSpsc) : a = b := by
  cases a
  cases b
  simp only [MpscQueue.toSpsc, SpscQueue.mk.injEq] at h
  obtain ⟨h1, h2, h3, h4, h5⟩ := h
  simp only [MpscQueue.mk.injEq]
  refine ⟨h1, ?_, h3, h4, h5⟩
  funext i
  exact mpscNode_toSpsc_inj (congrFun h2 i)

theorem update_toSpsc0 {T : Type} (ring : Nat → MpscNode T) (p idv : Nat) (val : Option T) :
    Function.update (fun i => ({ id := (ring i).id, value := (ring i).value } : SpscNode T)) p
        { id := idv, value := val } =
      (fun i =>
        ({ id := (Function.update ring p { id := idv, value := val } i).id,
           value := (Function.update ring p { id := idv, value := val } i).value } : SpscNode T)) := by
  funext i
  rcases eq_or_ne i p with hip | hip
  · subst hip
    rw [Function.update_same, Function.update_same]
  · rw [Function.update_noteq hip, Function.update_noteq hip]

theorem mpsc_offer_toSpsc {T : Type} (q : MpscQueue T) (v : T) :
    q.toSpsc.offer v = (q.offer v).map (fun r => (r.1, r.2.toSpsc)) := by
  unfold SpscQueue.offer MpscQueue.offer
  dsimp only [MpscQueue.toSpsc, SpscQueue.pos, MpscQueue.pos, MpscNode.toSpsc]
  split_ifs with hguard hid
  · rw [update_toSpsc0]
    rfl
  · rfl
  · rfl

theorem mpsc_poll_toSpsc {T : Type} (q : MpscQueue T) :
    q.toSpsc.poll = q.poll.map (fun r => (r.1, r.2.toSpsc)) := by
  unfold SpscQueue.poll MpscQueue.poll
  dsimp only [MpscQueue.toSpsc, SpscQueue.pos, MpscQueue.pos, MpscNode.toSpsc]
  split_ifs with hguard hid
  · rw [update_toSpsc0]
    rfl
  · rfl
  · rfl

theorem mpscNode_toSpsc_id {T : Type} (n : MpscNode T) : n.toSpsc.id = n.id := rfl

theorem mpscNode_toSpsc_value {T : Type} (n : MpscNode T) : n.toSpsc.value = n.value := rfl

theorem update_toSpscA {T : Type} (ring : Nat → MpscNode T) (p idv : Nat) (val : Option T) :
    Function.update (fun i => (ring i).toSpsc) p { id := idv, value := val } =
      (fun i => (Function.update ring p { id := idv, value := val } i).toSpsc) := by
  funext i
  rcases eq_or_ne i p with hip | hip
  · subst hip
    rw [Function.update_same, Function.update_same]
    rfl
  · rw [Function.update_noteq hip, Function.update_noteq hip]

theorem mpscDrainLoop_toSpsc {T : Type} (mask : Nat) :
    ∀ (r : Nat) (ring : Nat → MpscNode T) (s j : Nat),
      spscDrainLoop mask (fun i => (ring i).toSpsc) s j r =
        (mpscDrainLoop mask ring s j r).map (fun x => (x.1, fun i => (x.2 i).toSpsc)) := by
  intro r
  induction r with
  | zero =>
    intro ring s j
    rfl
  | succ r ih =>
    intro ring s j
    rw [spscDrainLoop, mpscDrainLoop]
    simp only [mpscNode_toSpsc_id, mpscNode_toSpsc_value]
    split_ifs with hid
    · cases hv : (ring ((s + j) &&& mask)).value with
      | none => rfl
      | some t =>
        simp only [hv]
        rw [update_toSpscA, ih]
        cases hrec : mpscDrainLoop mask
            (Function.update ring ((s + j) &&& mask) { id := 0, value := none }) s (j + 1) r with
        | none => rfl
        | some pr => rfl
    · rfl

theorem mpsc_drain_toSpsc {T : Type} (q : MpscQueue T) (limit : Nat) :
    q.toSpsc.drain limit = (q.drain limit).map (fun r => (r.1, r.2.1, r.2.2.toSpsc)) := by
  unfold SpscQueue.drain MpscQueue.drain
  dsimp only [MpscQueue.toSpsc]
  split_ifs with hempty
  · rfl
  · rw [mpscDrainLoop_toSpsc]
    cases hrec : mpscDrainLoop q.mask q.ring_buffer q.sequence_number 0
        (min limit (q.producer - q.sequence_number)) with
    | none => rfl
    | some pr => rfl

theorem MInv_new (T : Type) (n : Nat) : MInv (MpscQueue.new T n) [] :=
  SInv_new T n

theorem mpsc_offer_spec {T : Type} {q : MpscQueue T} {pend : List T} (h : MInv q pend)
    (hroom : pend.length < q.capacity) (v : T) :
    ∃ q2, q.offer v = some (true, q2) ∧ MInv q2 (pend ++ [v]) ∧ q2.capacity = q.capacity := by
  obtain ⟨s2, hoff, hinv, hcap⟩ := spsc_offer_spec (q := q.toSpsc) h hroom v
  rw [mpsc_offer_toSpsc] at hoff
  cases hq : q.offer v with
  | none =>
    rw [hq] at hoff
    exact absurd hoff (by simp)
  | some r =>
    obtain ⟨b, m2⟩ := r
    rw [hq] at hoff
    simp only [Option.map, Option.some.injEq, Prod.mk.injEq] at hoff
    refine ⟨m2, by rw [hoff.1], ?_, ?_⟩
    · show SInv m2.toSpsc (pend ++ [v])
      rw [hoff.2]
      exact hinv
    · show m2.toSpsc.capacity = q.toSpsc.capacity
      rw [hoff.2]
      exact hcap

theorem mpsc_offer_false_eq {T : Type} (q : MpscQueue T) (v : T) :
    q.offer v = some (false, q) ↔ q.toSpsc.offer v = some (false, q.toSpsc) := by
  constructor
  · intro h
    rw [mpsc_offer_toSpsc, h]
    rfl
  · intro h
    rw [mpsc_offer_toSpsc] at h
    cases hq : q.offer v with
    | none =>
      rw [hq] at h
      exact absurd h (by simp)
    | some r =>
      obtain ⟨b, m2⟩ := r
      rw [hq] at h
      simp only [Option.map, Option.some.injEq, Prod.mk.injEq] at h
      rw [h.1, toSpsc_inj h.2]

theorem mpsc_offer_false_iff {T : Type} {q : MpscQueue T} {pend : List T} (h : MInv q pend)
    (v : T) :
    (q.offer v = some (false, q) ↔ q.sequence_number ≤ q.producer - q.capacity)
    ∧ (q.offer v = some (false, q) ↔ pend.length = q.capacity) := by
  have hbase := spsc_offer_false_iff (q := q.toSpsc) h v
  rw [← mpsc_offer_false_eq] at hbase
  exact hbase

theorem mpsc_offer_full {T : Type} {q : MpscQueue T} {pend : List T} (h : MInv q pend)
    (hfull : pend.length = q.capacity) (v : T) :
    q.offer v = some (false, q) :=
  (mpsc_offer_false_eq q v).mpr (spsc_offer_full (q := q.toSpsc) h hfull v)

theorem mpsc_poll_nil {T : Type} {q : MpscQueue T} (h : MInv q []) :
    q.poll = some (none, q) := by
  have hbase := spsc_poll_nil (q := q.toSpsc) h
  rw [mpsc_poll_toSpsc] at hbase
  cases hq : q.poll with
  | none =>
    rw [hq] at hbase
    exact absurd hbase (by simp)
  | some r =>
    obtain ⟨x, m2⟩ := r
    rw [hq] at hbase
    simp only [Option.map, Option.some.injEq, Prod.mk.injEq] at hbase
    rw [hbase.1, toSpsc_inj hbase.2]

theorem mpsc_poll_cons {T : Type} {q : MpscQueue T} {v : T} {rest : List T}
    (h : MInv q (v :: rest)) :
    ∃ q2, q.poll = some (some v, q2) ∧ MInv q2 rest := by
  obtain ⟨s2, hpoll, hinv⟩ := spsc_poll_cons (q := q.toSpsc) h
  rw [mpsc_poll_toSpsc] at hpoll
  cases hq : q.poll with
  | none =>
    rw [hq] at hpoll
    exact absurd hpoll (by simp)
  | some r =>
    obtain ⟨x, m2⟩ := r
    rw [hq] at hpoll
    simp only [Option.map, Option.some.injEq, Prod.mk.injEq] at hpoll
    refine ⟨m2, by rw [hpoll.1], ?_⟩
    show SInv m2.toSpsc rest
    rw [hpoll.2]
    exact hinv

theorem mpsc_drain_empty {T : Type} {q : MpscQueue T} (h : MInv q []) (limit : Nat) :
    q.drain limit = some ([], 0, q) := by
  have hbase := spsc_drain_empty (q := q.toSpsc) h limit
  rw [mpsc_drain_toSpsc] at hbase
  cases hq : q.drain limit with
  | none =>
    rw [hq] at hbase
    exact absurd hbase (by simp)
  | some r =>
    obtain ⟨vs, n, m2⟩ := r
    rw [hq] at hbase
    simp only [Option.map, Option.some.injEq, Prod.mk.injEq] at hbase
    rw [hbase.1, hbase.2.1, toSpsc_inj hbase.2.2]

theorem mpsc_drain_spec {T : Type} {q : MpscQueue T} {pend : List T} (h : MInv q pend)
    (limit : Nat) :
    ∃ q2, q.drain limit = some (pend.take (min limit pend.length), min limit pend.length, q2) ∧
      q2.sequence_number = q.sequence_number + min limit pend.length ∧
      q2.producer = q.producer ∧ q2.capacity = q.capacity ∧
      MInv q2 (pend.drop (min limit pend.length)) := by
  obtain ⟨s2, hdrain, hseq, hprod, hcap, hinv⟩ := spsc_drain_spec (q := q.toSpsc) h limit
  rw [mpsc_drain_toSpsc] at hdrain
  cases hq : q.drain limit with
  | none =>
    rw [hq] at hdrain
    exact absurd hdrain (by simp)
  | some r =>
    obtain ⟨vs, n, m2⟩ := r
    rw [hq] at hdrain
    simp only [Option.map, Option.some.injEq, Prod.mk.injEq] at hdrain
    refine ⟨m2, by rw [hdrain.1, hdrain.2.1], ?_, ?_, ?_, ?_⟩
    · have : m2.toSpsc.sequence_number = q.toSpsc.sequence_number + min limit pend.length := by
        rw [hdrain.2.2]
        exact hseq
      exact this
    · have : m2.toSpsc.producer = q.toSpsc.producer := by
        rw [hdrain.2.2]
        exact hprod
      exact this
    · have : m2.toSpsc.capacity = q.toSpsc.capacity := by
        rw [hdrain.2.2]
        exact hcap
      exact this
    · show SInv m2.toSpsc (pend.drop (min limit pend.length))
      rw [hdrain.2.2]
      exact hinv

theorem spscOfferSeq_spec {T : Type} (vs : List T) :
    ∀ {q : SpscQueue T} {pend : List T}, SInv q pend →
    pend.length + vs.length ≤ q.capacity →
    ∃ q2, spscOfferSeq q vs = some q2 ∧ SInv q2 (pend ++ vs) ∧ q2.capacity = q.capacity := by
  induction vs with
  | nil =>
    intro q pend h _
    exact ⟨q, rfl, by simpa using h, rfl⟩
  | cons v vs ih =>
    intro q pend h hlen
    simp only [List.length_cons] at hlen
    obtain ⟨q1, hoff, hinv1, hcap1⟩ := spsc_offer_spec h (by omega) v
    obtain ⟨q2, hseq, hinv2, hcap2⟩ := ih hinv1 (by simp [hcap1]; omega)
    refine ⟨q2, ?_, by simpa using hinv2, by rw [hcap2, hcap1]⟩
    simp only [spscOfferSeq, hoff]
    exact hseq

theorem mpscOfferSeq_spec {T : Type} (vs : List T) :
    ∀ {q : MpscQueue T} {pend : List T}, MInv q pend →
    pend.length + vs.length ≤ q.capacity →
    ∃ q2, mpscOfferSeq q vs = some q2 ∧ MInv q2 (pend ++ vs) ∧ q2.capacity = q.capacity := by
  induction vs with
  | nil =>
    intro q pend h _
    refine ⟨q, rfl, ?_, rfl⟩
    show SInv q.toSpsc (pend ++ [])
    simpa using h
  | cons v vs ih =>
    intro q pend h hlen
    simp only [List.length_cons] at hlen
    obtain ⟨q1, hoff, hinv1, hcap1⟩ := mpsc_offer_spec h (by omega) v
    obtain ⟨q2, hseq, hinv2, hcap2⟩ := ih hinv1 (by simp [hcap1]; omega)
    refine ⟨q2, ?_, ?_, by rw [hcap2, hcap1]⟩
    · simp only [mpscOfferSeq, hoff]
      exact hseq
    · show SInv q2.toSpsc (pend ++ v :: vs)
      simpa using hinv2

theorem spscPollResults_succ {T : Type} (q : SpscQueue T) (n : Nat) :
    spscPollResults q (n + 1) =
      match q.poll with
      | some (r, q2) => (spscPollResults q2 n).map (fun rs => r :: rs)
      | none => none := rfl

theorem mpscPollResults_succ {T : Type} (q : MpscQueue T) (n : Nat) :
    mpscPollResults q (n + 1) =
      match q.poll with
      | some (r, q2) => (mpscPollResults q2 n).map (fun rs => r :: rs)
      | none => none := rfl

theorem spscPollResults_spec {T : Type} (pend : List T) :
    ∀ {q : SpscQueue T}, SInv q pend →
    spscPollResults q (pend.length + 1) = some (pend.map some ++ [none]) := by
  induction pend with
  | nil =>
    intro q h
    rw [List.length_nil, spscPollResults_succ, spsc_poll_nil h]
    rfl
  | cons v rest ih =>
    intro q h
    obtain ⟨q1, hpoll, hinv⟩ := spsc_poll_cons h
    have hlen : (v :: rest).length + 1 = rest.length + 1 + 1 := by simp
    rw [hlen, spscPollResults_succ, hpoll]
    dsimp only
    rw [ih hinv]
    simp

theorem mpscPollResults_spec {T : Type} (pend : List T) :
    ∀ {q : MpscQueue T}, MInv q pend →
    mpscPollResults q (pend.length + 1) = some (pend.map some ++ [none]) := by
  induction pend with
  | nil =>
    intro q h
    rw [List.length_nil, mpscPollResults_succ, mpsc_poll_nil h]
    rfl
  | cons v rest ih =>
    intro q h
    obtain ⟨q1, hpoll, hinv⟩ := mpsc_poll_cons h
    have hlen : (v :: rest).length + 1 = rest.length + 1 + 1 := by simp
    rw [hlen, mpscPollResults_succ, hpoll]
    dsimp only
    rw [ih hinv]
    simp

theorem spscOfferBools_cons {T : Type} (q : SpscQueue T) (v : T) (vs : List T) :
    spscOfferBools q (v :: vs) =
      match q.offer v with
      | some (b, q2) => (spscOfferBools q2 vs).map (fun bs => b :: bs)
      | none => none := rfl

theorem mpscOfferBools_cons {T : Type} (q : MpscQueue T) (v : T) (vs : List T) :
    mpscOfferBools q (v :: vs) =
      match q.offer v with
      | some (b, q2) => (mpscOfferBools q2 vs).map (fun bs => b :: bs)
      | none => none := rfl

theorem spscOfferBools_append {T : Type} (vs : List T) :
    ∀ {q q1 : SpscQueue T} (ws : List T), spscOfferSeq q vs = some q1 →
    spscOfferBools q (vs ++ ws) =
      (spscOfferBools q1 ws).map (fun bs => List.replicate vs.length true ++ bs) := by
  induction vs with
  | nil =>
    intro q q1 ws h
    have hq : q = q1 := by
      simpa [spscOfferSeq] using h
    subst hq
    simp only [List.nil_append, List.length_nil, List.replicate_zero]
    cases spscOfferBools q ws with
    | none => rfl
    | some bs => simp
  | cons v vs ih =>
    intro q q1 ws h
    simp only [spscOfferSeq] at h
    cases hov : q.offer v with
    | none =>
      rw [hov] at h
      exact absurd h (by simp)
    | some r =>
      obtain ⟨b, q2⟩ := r
      rw [hov] at h
      cases b with
      | false => exact absurd h (by simp)
      | true =>
        rw [List.cons_append, spscOfferBools_cons, hov]
        dsimp only
        rw [ih ws h, List.length_cons]
        cases spscOfferBools q1 ws with
        | none => rfl
        | some bs => simp [List.replicate_succ]

theorem mpscOfferBools_append {T : Type} (vs : List T) :
    ∀ {q q1 : MpscQueue T} (ws : List T), mpscOfferSeq q vs = some q1 →
    mpscOfferBools q (vs ++ ws) =
      (mpscOfferBools q1 ws).map (fun bs => List.replicate vs.length true ++ bs) := by
  induction vs with
  | nil =>
    intro q q1 ws h
    have hq : q = q1 := by
      simpa [mpscOfferSeq] using h
    subst hq
    simp only [List.nil_append, List.length_nil, List.replicate_zero]
    cases mpscOfferBools q ws with
    | none => rfl
    | some bs => simp
  | cons v vs ih =>
    intro q q1 ws h
    simp only [mpscOfferSeq] at h
    cases hov : q.offer v with
    | none =>
      rw [hov] at h
      exact absurd h (by simp)
    | some r =>
      obtain ⟨b, q2⟩ := r
      rw [hov] at h
      cases b with
      | false => exact absurd h (by simp)
      | true =>
        rw [List.cons_append, mpscOfferBools_cons, hov]
        dsimp only
        rw [ih ws h, List.length_cons]
        cases mpscOfferBools q1 ws with
        | none => rfl
        | some bs => simp [List.replicate_succ]

theorem spsc_129_offers :
    spscOfferBools (SpscQueue.new Nat 128) (List.replicate 129 0) =
      some (List.replicate 128 true ++ [false]) := by
  have hnew := SInv_new Nat 128
  have hcap : (SpscQueue.new Nat 128).capacity = 128 := rfl
  obtain ⟨q1, hseq, hinv1, hcap1⟩ :=
    spscOfferSeq_spec (List.replicate 128 (0 : Nat)) hnew (by simp [hcap])
  have hrepl : List.replicate 129 (0 : Nat) = List.replicate 128 0 ++ [0] :=
    List.replicate_succ' 128 0
  rw [hrepl, spscOfferBools_append _ _ hseq]
  have hinv1b : SInv q1 (List.replicate 128 (0 : Nat)) := by simpa using hinv1
  have hoff := spsc_offer_full hinv1b (by simp [hcap1, hcap]) 0
  simp [spscOfferBools, hoff]

theorem mpsc_129_offers :
    mpscOfferBools (MpscQueue.new Nat 128) (List.replicate 129 0) =
      some (List.replicate 128 true ++ [false]) := by
  have hnew := MInv_new Nat 128
  have hcap : (MpscQueue.new Nat 128).capacity = 128 := rfl
  obtain ⟨q1, hseq, hinv1, hcap1⟩ :=
    mpscOfferSeq_spec (List.replicate 128 (0 : Nat)) hnew (by simp [hcap])
  have hrepl : List.replicate 129 (0 : Nat) = List.replicate 128 0 ++ [0] :=
    List.replicate_succ' 128 0
  rw [hrepl, mpscOfferBools_append _ _ hseq]
  have hinv1b : MInv q1 (List.replicate 128 (0 : Nat)) := by
    show SInv q1.toSpsc (List.replicate 128 (0 : Nat))
    simpa using hinv1
  have hoff := mpsc_offer_full hinv1b (by simp [hcap1, hcap]) 0
  simp [mpscOfferBools, hoff]

theorem SInv_spscQ1 : SInv spscQ1 [42] := by
  refine ⟨rfl, ⟨2, rfl⟩, ?_, ?_, ?_, ?_, ?_, ?_⟩ <;> decide

theorem MInv_mpscQ1 : MInv mpscQ1 [42] := by
  refine ⟨rfl, ⟨2, rfl⟩, ?_, ?_, ?_, ?_, ?_, ?_⟩ <;> decide

/-- C3: on both the SPSC and the MPSC queue, a sequential run of n
successful offers followed by polls delivers exactly the offered values, in
offer order, each exactly once, and the (n+1)-th poll returns none. -/
theorem queue_offers_then_polls_fifo {T : Type} (q : SpscQueue T) (vs : List T)
    (hq : SInv q []) (hlen : vs.length ≤ q.capacity)
    (qm : MpscQueue T) (ws : List T) (hqm : MInv qm []) (hlenm : ws.length ≤ qm.capacity) :
    ((spscOfferSeq q vs).bind fun q1 => spscPollResults q1 (vs.length + 1)) =
      some (vs.map some ++ [none]) ∧
    ((mpscOfferSeq qm ws).bind fun q1 => mpscPollResults q1 (ws.length + 1)) =
      some (ws.map some ++ [none]) := by
  constructor
  · obtain ⟨q1, hseq, hinv, _⟩ := spscOfferSeq_spec vs hq (by simpa using hlen)
    rw [hseq]
    exact spscPollResults_spec vs (by simpa using hinv)
  · obtain ⟨q1, hseq, hinv, _⟩ := mpscOfferSeq_spec ws hqm (by simpa using hlenm)
    rw [hseq]
    refine mpscPollResults_spec ws ?_
    show SInv q1.toSpsc ws
    simpa using hinv

/-- Witness for the delivery claim: concrete runs on fresh capacity-4
queues. -/
theorem queue_offers_then_polls_fifo_witness :
    ((spscOfferSeq (SpscQueue.new Nat 4) [10, 20, 30]).bind fun q1 => spscPollResults q1 4) =
      some [some 10, some 20, some 30, none] ∧
    ((mpscOfferSeq (MpscQueue.new Nat 4) [7, 8]).bind fun q1 => mpscPollResults q1 3) =
      some [some 7, some 8, none] :=
  queue_offers_then_polls_fifo (SpscQueue.new Nat 4) [10, 20, 30] (SInv_new Nat 4)
    (by decide) (MpscQueue.new Nat 4) [7, 8] (MInv_new Nat 4) (by decide)

/-- C5: on both queues, `offer` returns false exactly when
`producer − capacity ≥ consumer`, equivalently when the occupied-slot count
equals the capacity; concretely, on a fresh capacity-128 queue the first
128 offers return true and the 129-th returns false. -/
theorem queue_offer_false_iff_full {T : Type} (q : SpscQueue T) (pend : List T) (v : T)
    (h : SInv q pend) (qm : MpscQueue T) (pendm : List T) (w : T) (hm : MInv qm pendm) :
    (q.offer v = some (false, q) ↔ q.sequence_number ≤ q.producer - q.capacity) ∧
    (q.offer v = some (false, q) ↔ pend.length = q.capacity) ∧
    (qm.offer w = some (false, qm) ↔ qm.sequence_number ≤ qm.producer - qm.capacity) ∧
    (qm.offer w = some (false, qm) ↔ pendm.length = qm.capacity) ∧
    spscOfferBools (SpscQueue.new Nat 128) (List.replicate 129 0) =
      some (List.replicate 128 true ++ [false]) ∧
    mpscOfferBools (MpscQueue.new Nat 128) (List.replicate 129 0) =
      some (List.replicate 128 true ++ [false]) := by
  have hs := spsc_offer_false_iff h v
  have hmm := mpsc_offer_false_iff hm w
  exact ⟨hs.1, hs.2, hmm.1, hmm.2, spsc_129_offers, mpsc_129_offers⟩

/-- Witness for the full-check claim: a reachable one-element capacity-4
state on each queue. -/
theorem queue_offer_false_iff_full_witness :
    ((spscQ1.offer 9 = some (false, spscQ1)) ↔ ([42] : List Nat).length = spscQ1.capacity) ∧
    ((mpscQ1.offer 9 = some (false, mpscQ1)) ↔ ([42] : List Nat).length = mpscQ1.capacity) := by
  have h := queue_offer_false_iff_full spscQ1 [42] 9 SInv_spscQ1 mpscQ1 [42] 9 MInv_mpscQ1
  exact ⟨h.2.1, h.2.2.2.1⟩

/-- C8: on both queues, `drain` advances the consumer cursor once by
`min limit (producer − consumer)`, invokes the callback once per reserved
payload in sequence order, returns that count, and returns 0 with an
unchanged state on an empty queue. -/
theorem queue_drain_batch_spec {T : Type} (q : SpscQueue T) (pend : List T) (limit : Nat)
    (h : SInv q pend) (qm : MpscQueue T) (pendm : List T) (limitm : Nat) (hm : MInv qm pendm) :
    ((q.drain limit).map (fun r => (r.1, r.2.1, r.2.2.sequence_number)) =
        some (pend.take (min limit (q.producer - q.sequence_number)),
          min limit (q.producer - q.sequence_number),
          q.sequence_number + min limit (q.producer - q.sequence_number)) ∧
      (q.producer ≤ q.sequence_number → q.drain limit = some ([], 0, q))) ∧
    ((qm.drain limitm).map (fun r => (r.1, r.2.1, r.2.2.sequence_number)) =
        some (pendm.take (min limitm (qm.producer - qm.sequence_number)),
          min limitm (qm.producer - qm.sequence_number),
          qm.sequence_number + min limitm (qm.producer - qm.sequence_number)) ∧
      (qm.producer ≤ qm.sequence_number → qm.drain limitm = some ([], 0, qm))) := by
  constructor
  · obtain ⟨q2, hdrain, hseq, _, _, _⟩ := spsc_drain_spec h limit
    have hmin : min limit pend.length = min limit (q.producer - q.sequence_number) := by
      rw [h.len_eq]
    constructor
    · rw [hdrain]
      simp only [Option.map, Option.some.injEq]
      rw [← hmin, hseq]
    · intro hle
      have hpend : pend = [] := by
        have := h.len_eq
        have hlen0 : pend.length = 0 := by omega
        exact List.length_eq_zero.mp hlen0
      subst hpend
      exact spsc_drain_empty h limit
  · have hm2 : SInv qm.toSpsc pendm := hm
    obtain ⟨q2, hdrain, hseq, _, _, _⟩ := mpsc_drain_spec hm limitm
    have hlenm : pendm.length = qm.producer - qm.sequence_number := hm2.len_eq
    have hmin : min limitm pendm.length = min limitm (qm.producer - qm.sequence_number) := by
      rw [hlenm]
    constructor
    · rw [hdrain]
      simp only [Option.map, Option.some.injEq]
      rw [← hmin, hseq]
    · intro hle
      have hpend : pendm = [] := by
        have hlen0 : pendm.length = 0 := by omega
        exact List.length_eq_zero.mp hlen0
      subst hpend
      exact mpsc_drain_empty hm limitm

/-- Witness for the drain claim: a one-element capacity-4 state on each
queue, drained with limit 5. -/
theorem queue_drain_batch_spec_witness :
    (spscQ1.drain 5).map (fun r => (r.1, r.2.1, r.2.2.sequence_number)) = some ([42], 1, 2) ∧
    (mpscQ1.drain 5).map (fun r => (r.1, r.2.1, r.2.2.sequence_number)) = some ([42], 1, 2) := by
  have h := queue_drain_batch_spec spscQ1 [42] 5 SInv_spscQ1 mpscQ1 [42] 5 MInv_mpscQ1
  exact ⟨h.1.1, h.2.1⟩

/-! ## Spin-loop retry ceilings -/

theorem spscDrainSlotWait_false : ∀ (n k : Nat),
    spscDrainSlotWait (fun _ => false) k n = SpinOutcome.spinning
  | 0, _ => rfl
  | n + 1, k => by
    rw [spscDrainSlotWait, if_neg (by simp)]
    exact spscDrainSlotWait_false n (k + 1)

theorem spscPollRetry_false : ∀ (n k : Nat),
    spscPollRetry (fun _ => false) k n = SpinOutcome.spinning
  | 0, _ => rfl
  | n + 1, k => by
    rw [spscPollRetry, if_neg (by simp)]
    exact spscPollRetry_false n (k + 1)

theorem spscOfferWait_false : ∀ (n k : Nat),
    spscOfferWait (fun _ => false) k n = SpinOutcome.spinning
  | 0, _ => rfl
  | n + 1, k => by
    rw [spscOfferWait, if_neg (by simp)]
    exact spscOfferWait_false n (k + 1)

theorem mpscOfferWait_false : ∀ (n k : Nat),
    mpscOfferWait (fun _ => false) k n = SpinOutcome.spinning
  | 0, _ => rfl
  | n + 1, k => by
    rw [mpscOfferWait, if_neg (by simp)]
    exact mpscOfferWait_false n (k + 1)

theorem mpscDrainSlotWait_aborts : ∀ (n fc : Nat), fc ≤ 1000000000 →
    1000000001 ≤ fc + n →
    mpscDrainSlotWait (fun _ => false) fc n = SpinOutcome.aborted
  | 0, fc, h1, h2 => absurd h2 (by omega)
  | n + 1, fc, h1, h2 => by
    rw [mpscDrainSlotWait, if_neg (by simp)]
    by_cases hc : fc + 1 > 1000000000
    · rw [if_pos hc]
    · rw [if_neg hc]
      exact mpscDrainSlotWait_aborts n (fc + 1) (by omega) (by omega)

theorem mpscPollRetry_aborts : ∀ (n i : Nat), i ≤ 1000000000 →
    1000000001 ≤ i + n →
    mpscPollRetry (fun _ => false) i n = SpinOutcome.aborted
  | 0, i, h1, h2 => absurd h2 (by omega)
  | n + 1, i, h1, h2 => by
    rw [mpscPollRetry, if_neg (by simp)]
    by_cases hc : i + 1 > 1000000000
    · rw [if_pos hc]
    · rw [if_neg hc]
      exact mpscPollRetry_aborts n (i + 1) (by omega) (by omega)

/-- C6 counterexample: the SPSC drain per-slot wait is still spinning after
2·10⁹ retries on a permanently mismatched slot — it has no retry ceiling
and never aborts, contrary to the claimed ~10⁹ ceiling on every
spin-waiting queue operation. -/
theorem spsc_drain_wait_exceeds_ceiling :
    spscDrainSlotWait (fun _ => false) 0 2000000000 = SpinOutcome.spinning ∧
    spscDrainSlotWait (fun _ => false) 0 2000000000 ≠ SpinOutcome.aborted := by
  have h := spscDrainSlotWait_false 2000000000 0
  refine ⟨h, ?_⟩
  rw [h]
  decide

/-- C6 amended: only the MPSC queue's consumer-side retry loops (the drain
per-slot wait and the poll retry counter) have the ~10⁹ ceiling and abort
past it; the SPSC poll retry and drain per-slot wait, and both queues'
producer-side occupied-slot waits, spin without any ceiling. -/
theorem spin_wait_ceilings :
    mpscDrainSlotWait (fun _ => false) 0 1000000001 = SpinOutcome.aborted ∧
    mpscPollRetry (fun _ => false) 0 1000000001 = SpinOutcome.aborted ∧
    (∀ n k, spscDrainSlotWait (fun _ => false) k n = SpinOutcome.spinning) ∧
    (∀ n k, spscPollRetry (fun _ => false) k n = SpinOutcome.spinning) ∧
    (∀ n k, spscOfferWait (fun _ => false) k n = SpinOutcome.spinning) ∧
    (∀ n k, mpscOfferWait (fun _ => false) k n = SpinOutcome.spinning) :=
  ⟨mpscDrainSlotWait_aborts 1000000001 0 (by omega) (by omega),
   mpscPollRetry_aborts 1000000001 0 (by omega) (by omega),
   fun n k => spscDrainSlotWait_false n k,
   fun n k => spscPollRetry_false n k,
   fun n k => spscOfferWait_false n k,
   fun n k => mpscOfferWait_false n k⟩

/-! ## MRSW map -/

theorem mrswInv_new {K V E : Type} (ap : (K → Option V) → E → (K → Option V))
    (m0 : K → Option V) :
    MrswInv (E := E) ap m0 (MrswMap.new m0 m0 ap) [] [] := by
  refine ⟨rfl, Or.inr ⟨rfl, rfl⟩, rfl, rfl, ?_, ?_, ?_, ?_⟩ <;>
    simp [MrswMap.writerContainer, MrswMap.readerContainer, MrswMap.new, READER, WRITER]

theorem mrsw_add_event_inv {K V E : Type} {ap : (K → Option V) → E → (K → Option V)}
    {m0 : K → Option V} {q : MrswMap K V E} {cmtd pend : List E}
    (h : MrswInv ap m0 q cmtd pend) (e : E) :
    MrswInv ap m0 (q.add_event e) cmtd (pend ++ [e]) := by
  have hap := h.apply_eq
  rcases h.states with ⟨h1, h2⟩ | ⟨h1, h2⟩
  · have hw := h.writer_map
    have hwq := h.writer_queue
    have hr := h.reader_map
    have hrq := h.reader_queue
    rw [MrswMap.writerContainer, if_pos h1] at hw hwq
    rw [MrswMap.readerContainer, if_pos h1] at hr hrq
    unfold MrswMap.add_event
    rw [if_pos h1]
    refine ⟨hap, Or.inl ⟨h1, h2⟩, h.count1, h.count2, ?_, ?_, ?_, ?_⟩ <;>
      simp only [MrswMap.writerContainer, MrswMap.readerContainer, if_pos h1]
    · simp [hap, hw, List.foldl_append]
    · exact hwq
    · exact hr
    · rw [hrq]
  · have hw := h.writer_map
    have hwq := h.writer_queue
    have hr := h.reader_map
    have hrq := h.reader_queue
    have h1n : ¬ q.map1.state = WRITER := by
      rw [h1]
      decide
    rw [MrswMap.writerContainer, if_neg h1n] at hw hwq
    rw [MrswMap.readerContainer, if_neg h1n] at hr hrq
    unfold MrswMap.add_event
    rw [if_neg h1n]
    refine ⟨hap, Or.inr ⟨h1, h2⟩, h.count1, h.count2, ?_, ?_, ?_, ?_⟩ <;>
      simp only [MrswMap.writerContainer, MrswMap.readerContainer, if_neg h1n]
    · simp [hap, hw, List.foldl_append]
    · exact hwq
    · exact hr
    · rw [hrq]

theorem mrsw_commit_inv {K V E : Type} {ap : (K → Option V) → E → (K → Option V)}
    {m0 : K → Option V} {q : MrswMap K V E} {cmtd pend : List E}
    (h : MrswInv ap m0 q cmtd pend) :
    ∃ q2, q.commit = some q2 ∧ MrswInv ap m0 q2 (cmtd ++ pend) [] := by
  have hap := h.apply_eq
  rcases h.states with ⟨h1, h2⟩ | ⟨h1, h2⟩
  · have hw := h.writer_map
    have hwq := h.writer_queue
    have hr := h.reader_map
    have hrq := h.reader_queue
    rw [MrswMap.writerContainer, if_pos h1] at hw hwq
    rw [MrswMap.readerContainer, if_pos h1] at hr hrq
    refine ⟨{ q with
        map1 := { q.map1 with state := READER }
        map2 := { q.map2 with
            state := WRITER
            map := q.map2.event_stream.foldl q.apply_change q.map2.map
            event_stream := [] }
        current_reader := false }, ?_, ?_⟩
    · unfold MrswMap.commit
      rw [if_pos h1, if_pos h.count2]
    · refine ⟨hap, Or.inr ⟨rfl, rfl⟩, h.count1, h.count2, ?_, ?_, ?_, ?_⟩ <;>
        simp only [MrswMap.writerContainer, MrswMap.readerContainer]
      · rw [if_neg (by simp [READER, WRITER])]
        dsimp only
        rw [hrq, hr, hap, List.append_nil, ← List.foldl_append]
      · rw [if_neg (by simp [READER, WRITER])]
      · rw [if_neg (by simp [READER, WRITER])]
        dsimp only
        exact hw
      · rw [if_neg (by simp [READER, WRITER])]
        dsimp only
        exact hwq
  · have hw := h.writer_map
    have hwq := h.writer_queue
    have hr := h.reader_map
    have hrq := h.reader_queue
    have h1n : ¬ q.map1.state = WRITER := by
      rw [h1]
      decide
    rw [MrswMap.writerContainer, if_neg h1n] at hw hwq
    rw [MrswMap.readerContainer, if_neg h1n] at hr hrq
    refine ⟨{ q with
        map2 := { q.map2 with state := READER }
        map1 := { q.map1 with
            state := WRITER
            map := q.map1.event_stream.foldl q.apply_change q.map1.map
            event_stream := [] }
        current_reader := true }, ?_, ?_⟩
    · unfold MrswMap.commit
      rw [if_neg h1n, if_pos h.count1]
    · refine ⟨hap, Or.inl ⟨rfl, rfl⟩, h.count1, h.count2, ?_, ?_, ?_, ?_⟩ <;>
        simp only [MrswMap.writerContainer, MrswMap.readerContainer, if_pos rfl, if_true]
      · try dsimp only
        rw [hrq, hr, hap, List.append_nil, ← List.foldl_append]
      · try dsimp only
        exact hw
      · try dsimp only
        exact hwq

theorem runWriter_inv {K V E : Type} {ap : (K → Option V) → E → (K → Option V)}
    {m0 : K → Option V} :
    ∀ (ops : List (WriterOp E)) {q : MrswMap K V E} {cmtd pend : List E},
    MrswInv ap m0 q cmtd pend →
    ∃ q2, runWriter q ops = some q2 ∧
      MrswInv ap m0 q2 (ops.foldl splitStep (cmtd, pend)).1
        (ops.foldl splitStep (cmtd, pend)).2 := by
  intro ops
  induction ops with
  | nil =>
    intro q cmtd pend h
    exact ⟨q, rfl, h⟩
  | cons op rest ih =>
    intro q cmtd pend h
    cases op with
    | add e =>
      obtain ⟨q2, hrun, hinv⟩ := ih (mrsw_add_event_inv h e)
      exact ⟨q2, hrun, hinv⟩
    | commit =>
      obtain ⟨q1, hcommit, hinv1⟩ := mrsw_commit_inv h
      obtain ⟨q2, hrun, hinv⟩ := ih hinv1
      refine ⟨q2, ?_, hinv⟩
      simp only [runWriter, hcommit]
      exact hrun

theorem splitStep_fold_append {E : Type} :
    ∀ (ops : List (WriterOp E)) (cmtd pend : List E),
    (ops.foldl splitStep (cmtd, pend)).1 ++ (ops.foldl splitStep (cmtd, pend)).2 =
      cmtd ++ pend ++ addedEvents ops := by
  intro ops
  induction ops with
  | nil =>
    intro cmtd pend
    simp [addedEvents]
  | cons op rest ih =>
    intro cmtd pend
    cases op with
    | add e =>
      rw [List.foldl_cons]
      have hstep : splitStep (cmtd, pend) (WriterOp.add e) = (cmtd, pend ++ [e]) := rfl
      rw [hstep, ih cmtd (pend ++ [e])]
      simp [addedEvents]
    | commit =>
      rw [List.foldl_cons]
      have hstep : splitStep (cmtd, pend) WriterOp.commit = (cmtd ++ pend, []) := rfl
      rw [hstep, ih (cmtd ++ pend) []]
      simp [addedEvents]

theorem splitStep_fold_last_commit {E : Type} (pre : List (WriterOp E)) (cp : List E × List E) :
    ((pre ++ [WriterOp.commit]).foldl splitStep cp).2 = [] := by
  rw [List.foldl_append]
  rfl

theorem mrsw_run_facts {K V E : Type}
    (ap : (K → Option V) → E → (K → Option V)) (m0 : K → Option V)
    (ops : List (WriterOp E)) (q : MrswMap K V E)
    (h : runWriter (MrswMap.new m0 m0 ap) ops = some q) :
    (q.writerContainer.map = (addedEvents ops).foldl ap m0 ∧
     q.writerContainer.event_stream = [] ∧
     q.readerContainer.map = (splitEvents ops).1.foldl ap m0 ∧
     q.readerContainer.event_stream = (splitEvents ops).2 ∧
     (splitEvents ops).1 ++ (splitEvents ops).2 = addedEvents ops) ∧
    (∀ pre, ops = pre ++ [WriterOp.commit] →
      q.map1.map = (addedEvents ops).foldl ap m0 ∧
      q.map2.map = (addedEvents ops).foldl ap m0) := by
  obtain ⟨q2, hrun, hinv⟩ := runWriter_inv ops (mrswInv_new ap m0)
  rw [h] at hrun
  injection hrun with hq2
  subst hq2
  have happ : (splitEvents ops).1 ++ (splitEvents ops).2 = addedEvents ops := by
    have := splitStep_fold_append ops [] []
    simpa [splitEvents] using this
  have hw : q.writerContainer.map = (addedEvents ops).foldl ap m0 := by
    have := hinv.writer_map
    rw [show (ops.foldl splitStep ([], [])).1 ++ (ops.foldl splitStep ([], [])).2 =
      addedEvents ops from happ] at this
    exact this
  refine ⟨⟨hw, hinv.writer_queue, hinv.reader_map, hinv.reader_queue, happ⟩, ?_⟩
  intro pre hpre
  have hpend : (splitEvents ops).2 = [] := by
    rw [hpre]
    exact splitStep_fold_last_commit pre ([], [])
  have hcmtd : (splitEvents ops).1 = addedEvents ops := by
    rw [← happ, hpend, List.append_nil]
  have hr : q.readerContainer.map = (addedEvents ops).foldl ap m0 := by
    rw [hinv.reader_map]
    show (splitEvents ops).1.foldl ap m0 = _
    rw [hcmtd]
  rcases hinv.states with ⟨h1, _⟩ | ⟨h1, _⟩
  · have hwc : q.writerContainer = q.map1 := by
      rw [MrswMap.writerContainer, if_pos h1]
    have hrc : q.readerContainer = q.map2 := by
      rw [MrswMap.readerContainer, if_pos h1]
    rw [hwc] at hw
    rw [hrc] at hr
    exact ⟨hw, hr⟩
  · have h1n : ¬ q.map1.state = WRITER := by
      rw [h1]
      decide
    have hwc : q.writerContainer = q.map2 := by
      rw [MrswMap.writerContainer, if_neg h1n]
    have hrc : q.readerContainer = q.map1 := by
      rw [MrswMap.readerContainer, if_neg h1n]
    rw [hwc] at hw
    rw [hrc] at hr
    exact ⟨hr, hw⟩

/-- C10: in any sequential writer run from equal initial maps, the
WRITER-tagged container always holds the fold of the applier over every
added event with an empty queue, the READER-tagged container holds the fold
over the committed events with exactly the since-last-commit events queued
in order, and immediately after a run ending in a commit both containers
hold the same map — the fold over all added events. -/
theorem mrsw_commit_container_sync {K V E : Type}
    (ap : (K → Option V) → E → (K → Option V)) (m0 : K → Option V)
    (ops : List (WriterOp E)) (q : MrswMap K V E)
    (h : runWriter (MrswMap.new m0 m0 ap) ops = some q) :
    (q.writerContainer.map = (addedEvents ops).foldl ap m0 ∧
     q.writerContainer.event_stream = [] ∧
     q.readerContainer.map = (splitEvents ops).1.foldl ap m0 ∧
     q.readerContainer.event_stream = (splitEvents ops).2 ∧
     (splitEvents ops).1 ++ (splitEvents ops).2 = addedEvents ops) ∧
    (∀ pre, ops = pre ++ [WriterOp.commit] →
      q.map1.map = (addedEvents ops).foldl ap m0 ∧
      q.map2.map = (addedEvents ops).foldl ap m0) :=
  mrsw_run_facts ap m0 ops q h

/-- Witness for the MRSW container-sync claim: the run add (1,5); commit
from empty equal maps. -/
theorem mrsw_commit_container_sync_witness :
    mrswQ1.map1.map = ([(1, 5)] : List (Nat × Nat)).foldl mrswApplier mrswM0 ∧
    mrswQ1.map2.map = ([(1, 5)] : List (Nat × Nat)).foldl mrswApplier mrswM0 := by
  have h : runWriter (MrswMap.new mrswM0 mrswM0 mrswApplier)
      ([WriterOp.add (1, 5)] ++ [WriterOp.commit]) = some mrswQ1 := rfl
  exact (mrsw_commit_container_sync mrswApplier mrswM0 _ mrswQ1 h).2
    [WriterOp.add (1, 5)] rfl

/-- C4: in a sequential writer run ending in a commit, `get` applies the
projection to the value of the key in the fold of the applier over every
event added before that commit, in add order. -/
theorem mrsw_get_after_commit {K V E R : Type}
    (ap : (K → Option V) → E → (K → Option V)) (m0 : K → Option V)
    (pre : List (WriterOp E)) (q : MrswMap K V E)
    (h : runWriter (MrswMap.new m0 m0 ap) (pre ++ [WriterOp.commit]) = some q)
    (key : K) (act : Option V → R) :
    (q.get key act).1 =
      act (((addedEvents (pre ++ [WriterOp.commit])).foldl ap m0) key) := by
  have hboth := (mrsw_run_facts ap m0 _ q h).2 pre rfl
  unfold MrswMap.get
  split_ifs with hcur
  · dsimp only
    rw [hboth.1]
  · dsimp only
    rw [hboth.2]

/-- Witness for the get-after-commit claim: the test scenario add (1,5);
commit; get 1. -/
theorem mrsw_get_after_commit_witness :
    (mrswQ1.get 1 (fun x => x)).1 = some 5 := by
  have h : runWriter (MrswMap.new mrswM0 mrswM0 mrswApplier)
      ([WriterOp.add (1, 5)] ++ [WriterOp.commit]) = some mrswQ1 := rfl
  have hg := mrsw_get_after_commit mrswApplier mrswM0 [WriterOp.add (1, 5)] mrswQ1 h 1
    (fun x => x)
  rw [hg]
  rfl

/-- C1 (code bug): `get` performs `fetch_add(1)` on the live-reader count
both on entry and before returning (mrsw_map.rs lines 239 and 242), so one
completed `get` leaves the current container's count at 2, not at its
pre-call value 0; a later commit that must wait for that container's count
to reach zero then never returns. -/
theorem mrsw_get_reader_count_leak :
    ((runWriter (MrswMap.new mrswM0 mrswM0 mrswApplier)
        [WriterOp.add (1, 5), WriterOp.commit]).map
      (fun q => ((q.get 1 (fun x => x)).2.currentContainer.reader_count))) = some 2 ∧
    ((runWriter (MrswMap.new mrswM0 mrswM0 mrswApplier)
        [WriterOp.add (1, 5), WriterOp.commit]).bind
      (fun q => (((q.get 1 (fun x => x)).2.commit).bind MrswMap.commit))) = none := by
  constructor
  · rfl
  · rfl

/-- C2 (code bug): `commit` stores the container it has just retagged
WRITER into the `current_reader` pointer (mrsw_map.rs line 200 stores
`reader`, which line 198 set to WRITER), so after a commit the current
pointer references the WRITER-tagged container, not the READER-tagged
one. -/
theorem mrsw_commit_publishes_writer_tagged :
    ((runWriter (MrswMap.new mrswM0 mrswM0 mrswApplier) [WriterOp.commit]).map
      (fun q => q.currentContainer.state)) = some WRITER ∧ WRITER ≠ READER := by
  constructor
  · rfl
  · decide

/-! ## Byte buffer -/

/-- C7 (code bug): the volatile 32-bit accessors slice with the 8-byte
offset (`calculate_offset_long`), so at capacity 8 and position 4 the
non-volatile `get_u32`/`put_u32` work while the volatile variants panic;
where both are in range the volatile variants read and write exactly the
same bytes and return the same value. -/
theorem volatile_u32_bound_mismatch :
    AtomicByteBufferInt.get_u32 (AtomicByteBufferInt.new 8) 4 = some 0 ∧
    AtomicByteBufferInt.get_u32_volatile (AtomicByteBufferInt.new 8) 4 = none ∧
    (AtomicByteBufferInt.put_u32 (AtomicByteBufferInt.new 8) 4 123).isSome = true ∧
    AtomicByteBufferInt.put_u32_volatile (AtomicByteBufferInt.new 8) 4 123 = none ∧
    AtomicByteBufferInt.get_u32_volatile (AtomicByteBufferInt.new 16) 4 =
      AtomicByteBufferInt.get_u32 (AtomicByteBufferInt.new 16) 4 ∧
    ((AtomicByteBufferInt.put_u32 (AtomicByteBufferInt.new 16) 4 123).bind
        (fun b => b.get_u32_volatile 4)) =
      ((AtomicByteBufferInt.put_u32 (AtomicByteBufferInt.new 16) 4 123).bind
        (fun b => b.get_u32 4)) ∧
    ((AtomicByteBufferInt.put_u64_volatile (AtomicByteBufferInt.new 16) 8 77).bind
        (fun b => b.get_u64 8)) =
      ((AtomicByteBufferInt.put_u64 (AtomicByteBufferInt.new 16) 8 77).bind
        (fun b => b.get_u64_volatile 8)) := by
  refine ⟨rfl, rfl, rfl, rfl, rfl, rfl, rfl⟩

/-- C9 (code bug): put-then-get round-trips hold for the non-volatile
accessors of every width and for the 64-bit volatile pair at any in-range
position, but the volatile 32-bit put panics at a position where
`position + 4 ≤ capacity` holds and `position + 8 ≤ capacity` fails, so the
round-trip claim fails there for the volatile accessors. -/
theorem put_get_roundtrip_volatile_u32_aborts :
    ((AtomicByteBufferInt.put_u32 (AtomicByteBufferInt.new 8) 4 123).bind
        (fun b => b.get_u32 4)) = some 123 ∧
    AtomicByteBufferInt.put_u32_volatile (AtomicByteBufferInt.new 8) 4 123 = none ∧
    ((AtomicByteBufferInt.put_u16 (AtomicByteBufferInt.new 8) 6 54321).bind
        (fun b => b.get_u16 6)) = some 54321 ∧
    ((AtomicByteBufferInt.put_u64 (AtomicByteBufferInt.new 8) 0 987654321).bind
        (fun b => b.get_u64 0)) = some 987654321 ∧
    ((AtomicByteBufferInt.put_u64_volatile (AtomicByteBufferInt.new 8) 0 987654321).bind
        (fun b => b.get_u64_volatile 0)) = some 987654321 := by
  refine ⟨rfl, rfl, rfl, rfl, rfl⟩

end A19
